import Mathlib

/-!
Verification of the bistroAR transaction pipeline.

Shallow embedding of the line-classification parsers
(`parse_transactions.py`, `parseTransactions.py`, `txt_journal_parser.py`,
`parse_transactions_excel.py`), the visit aggregator (`etl_load.py`) and the
reconciliation differ (`reconcile.py`).  Strings are Lean `String`s, Python
floats are embedded as rationals (`ℚ`): all prices in scope are finite
decimals, which `ℚ` represents exactly.  Fallible Python code (raised
exceptions) is embedded with `Option`/`Except`.
-/

set_option maxHeartbeats 1000000

namespace BistroAR

/-- Python whitespace as used by `str.strip` / the regex class `\s`
(ASCII portion; the documents in scope are ASCII). -/
def pyIsSpace (c : Char) : Bool :=
  c = ' ' || c = '\t' || c = '\n' || c = '\r' || c = '\x0b' || c = '\x0c'

/-- Drop whitespace from both ends of a character list (Python `str.strip()`). -/
def stripChars (cs : List Char) : List Char :=
  ((cs.dropWhile pyIsSpace).reverse.dropWhile pyIsSpace).reverse

/-- Python `str.strip()`. -/
def pyStrip (s : String) : String := ⟨stripChars s.toList⟩

/-- Python `str.lower()` (ASCII portion). -/
def pyLower (s : String) : String := ⟨s.toList.map Char.toLower⟩

/-- Split a list at its leading run of decimal digits. -/
def spanDigits (cs : List Char) : List Char × List Char :=
  (cs.takeWhile Char.isDigit, cs.dropWhile Char.isDigit)

/-- Numeric value of a digit string. -/
def digitsToNat (ds : List Char) : Nat :=
  ds.foldl (fun a c => a * 10 + (c.toNat - 48)) 0

/-- Core of Python `float(str)` on an already-stripped character list:
optional sign, then digits with an optional decimal point (at least one digit
overall), then an optional exponent part, consuming the whole input.
Non-finite literals (`inf`, `nan`) and digit-group underscores are outside the
`ℚ` embedding and are not produced by the documents in scope. -/
def pyFloatCore (cs : List Char) : Option ℚ :=
  let (sgn, cs1) :=
    match cs with
    | '+' :: t => ((1 : ℚ), t)
    | '-' :: t => ((-1 : ℚ), t)
    | t => ((1 : ℚ), t)
  let (ip, cs2) := spanDigits cs1
  let (fp, cs3) :=
    match cs2 with
    | '.' :: t => spanDigits t
    | t => (([] : List Char), t)
  if ip = [] ∧ fp = [] then none
  else
    let mant : ℚ := sgn * ((digitsToNat ip : ℚ) + (digitsToNat fp : ℚ) / (10 : ℚ) ^ fp.length)
    match cs3 with
    | [] => some mant
    | c :: t =>
      if c = 'e' ∨ c = 'E' then
        let (eneg, t1) :=
          match t with
          | '+' :: u => (false, u)
          | '-' :: u => (true, u)
          | u => (false, u)
        let (ed, t2) := spanDigits t1
        if ed = [] ∨ t2 ≠ [] then none
        else if eneg then some (mant / (10 : ℚ) ^ digitsToNat ed)
        else some (mant * (10 : ℚ) ^ digitsToNat ed)
      else none

/-- Python `float(s)`: surrounding whitespace is ignored, failure is `none`
(a raised `ValueError`). -/
def pyFloat? (s : String) : Option ℚ := pyFloatCore (stripChars s.toList)

/-- Remove every `$` and `,` character: models
`s.replace('$', '').replace(',', '')` applied to price strings. -/
def cleanPriceStr (cs : List Char) : List Char :=
  cs.filter (fun c => c ≠ '$' && c ≠ ',')

/-- Python `line.rsplit(' ', 1)`: split at the last space character.
`none` when the line contains no space (Python returns a one-element list,
which the callers skip). -/
def rsplitOnce (cs : List Char) : Option (List Char × List Char) :=
  let rev := cs.reverse
  let tailRev := rev.takeWhile (fun c => c ≠ ' ')
  match rev.dropWhile (fun c => c ≠ ' ') with
  | [] => none
  | _ :: beforeRev => some (beforeRev.reverse, tailRev.reverse)

/-- Zero-pad a number to two digits (Python format `{n:02d}`). -/
def pad2 (n : Nat) : String := if n < 10 then "0" ++ toString n else toString n

/-- Zero-pad a year to four digits (Python `%Y`). -/
def pad4 (n : Nat) : String :=
  if n < 10 then "000" ++ toString n
  else if n < 100 then "00" ++ toString n
  else if n < 1000 then "0" ++ toString n
  else toString n

/-- One transaction record: the canonical shape shared by every parser
variant (`client_code`, `date`, `time`, `reference`, `employee`,
`description`, `price`). -/
structure TxnRecord where
  client_code : String
  date : String
  time : String
  reference : String
  employee : String
  description : String
  price : ℚ
deriving Repr, DecidableEq

/-- Fields captured from a matched header line. -/
structure Header where
  client_code : String
  date : String
  time : String
  reference : String
  employee : String
deriving Repr, DecidableEq

/-- Raw groups of the header regex
`^(?P<code>\d+)\s+(?P<date>\d{1,2}/\d{1,2}/\d{2})\s+(?P<time>\d{1,2}:\d{2})\s+#?(?P<ref>\d+)`
up to, and excluding, the final `\s+` and the employee group: the remaining
input right after the `ref` group is kept in `rest`. -/
structure HeaderGroups where
  code : List Char
  mm : List Char
  dd : List Char
  yy : List Char
  time : List Char
  ref : List Char
  rest : List Char

/-- Consume one expected character. -/
def expectChar (c : Char) : List Char → Option (List Char)
  | x :: t => if x = c then some t else none
  | [] => none

/-- Regex `\s+`: consume a nonempty run of whitespace. -/
def matchSpaces1 (cs : List Char) : Option (List Char) :=
  if cs.takeWhile pyIsSpace = [] then none else some (cs.dropWhile pyIsSpace)

/-- Regex `\d+`: consume a nonempty run of digits. -/
def matchDigits1 (cs : List Char) : Option (List Char × List Char) :=
  let (d, r) := spanDigits cs
  if d = [] then none else some (d, r)

/-- Greedily take at most `n` digits. -/
def takeDigitsUpTo : Nat → List Char → List Char × List Char
  | 0, cs => ([], cs)
  | _ + 1, [] => ([], [])
  | n + 1, c :: t =>
    if c.isDigit then
      let (d, r) := takeDigitsUpTo n t
      (c :: d, r)
    else ([], c :: t)

/-- Regex `\d{1,2}`: one or two digits, greedy.  In the header pattern the
quantified digits are always followed by a non-digit literal or `\s`, so
greedy maximal munch is equivalent to the backtracking semantics. -/
def matchDigits12 (cs : List Char) : Option (List Char × List Char) :=
  let (d, r) := takeDigitsUpTo 2 cs
  if d = [] then none else some (d, r)

/-- Regex `\d{2}`: exactly two digits. -/
def matchDigits2 (cs : List Char) : Option (List Char × List Char) :=
  let (d, r) := takeDigitsUpTo 2 cs
  if d.length = 2 then some (d, r) else none

/-- Match the shared prefix of both header regexes (everything before the
employee group).  The `#?` optional literal commutes with the following
`\d+` exactly as in the backtracking regex because `#` is not a digit. -/
def matchHeaderCore (cs : List Char) : Option HeaderGroups := do
  let (code, r1) ← matchDigits1 cs
  let r2 ← matchSpaces1 r1
  let (mm, r3) ← matchDigits12 r2
  let r4 ← expectChar '/' r3
  let (dd, r5) ← matchDigits12 r4
  let r6 ← expectChar '/' r5
  let (yy, r7) ← matchDigits2 r6
  let r8 ← matchSpaces1 r7
  let (hh, r9) ← matchDigits12 r8
  let r10 ← expectChar ':' r9
  let (mi, r11) ← matchDigits2 r10
  let r12 ← matchSpaces1 r11
  let r13 := match r12 with
    | '#' :: t => t
    | t => t
  let (ref, r14) ← matchDigits1 r13
  pure ⟨code, mm, dd, yy, hh ++ ':' :: mi, ref, r14⟩

/-- The tail `\s+(?P<emp>.+)` of the header regex of `parse_transactions.py`:
`\s+` is greedy but backtracks against `.+` (a space is matched by `.`, a
newline is not).  On input with trailing text, `emp` is the maximal
newline-free run after the maximal whitespace run; on input ending in
whitespace, `\s+` gives characters back one at a time (keeping at least one),
so `emp` becomes the last non-newline whitespace character, if any beyond the
first. -/
def empMatchA (cs : List Char) : Option (List Char) :=
  let sp := cs.takeWhile pyIsSpace
  let rest0 := cs.dropWhile pyIsSpace
  if sp = [] then none
  else if rest0 ≠ [] then some (rest0.takeWhile (fun c => c ≠ '\n'))
  else
    match (sp.drop 1).reverse.dropWhile (fun c => c = '\n') with
    | [] => none
    | c :: _ => some [c]

/-- The tail `\s+(?P<emp>\S+)` of the header regex of `parseTransactions.py`:
backtracking of `\s+` can never help `\S+`, so this is maximal whitespace
followed by a nonempty maximal non-whitespace run. -/
def empMatchB (cs : List Char) : Option (List Char) :=
  let sp := cs.takeWhile pyIsSpace
  let rest0 := cs.dropWhile pyIsSpace
  if sp = [] then none
  else
    let emp := rest0.takeWhile (fun c => ¬ pyIsSpace c)
    if emp = [] then none else some emp

/-- Date normalisation performed on a header match:
`mm, dd, yy = date.split('/'); date = f"20{yy}-{int(mm):02d}-{int(dd):02d}"`. -/
def normDate (mm dd yy : List Char) : String :=
  "20" ++ String.mk yy ++ "-" ++ pad2 (digitsToNat mm) ++ "-" ++ pad2 (digitsToNat dd)

namespace parse_transactions

/-- Header matcher of `parse_transactions.py`: employee group `(?P<emp>.+)`
(the rest of the line up to a newline), to which the source applies
`.strip()`. -/
def headerMatch (line : String) : Option Header :=
  (matchHeaderCore line.toList).bind fun g =>
    (empMatchA g.rest).map fun emp =>
      ⟨String.mk g.code, normDate g.mm g.dd g.yy, String.mk g.time,
       String.mk g.ref, pyStrip (String.mk emp)⟩

/-- Line loop of `parse_transactions.py.parse_transaction_pdf`: each line is
stripped, matched against the header pattern (updating `header_info`), and
otherwise treated as a candidate detail line, emitted only under an active
header and a parseable trailing price. -/
def processLines : Option Header → List String → List TxnRecord
  | _, [] => []
  | st, line :: rest =>
    let l := pyStrip line
    match headerMatch l with
    | some h => processLines (some h) rest
    | none =>
      match st with
      | none => processLines none rest
      | some h =>
        match rsplitOnce l.toList with
        | none => processLines (some h) rest
        | some (d, p) =>
          match pyFloat? (String.mk (cleanPriceStr p)) with
          | none => processLines (some h) rest
          | some price =>
            ⟨h.client_code, h.date, h.time, h.reference, h.employee,
             pyStrip (String.mk d), price⟩ :: processLines (some h) rest

/-- `parse_transaction_pdf` of `parse_transactions.py` on the document's
text lines (pages are concatenated in order; `header_info` starts empty and
persists across pages). -/
def parse_transaction_pdf (lines : List String) : List TxnRecord :=
  processLines none lines

end parse_transactions

namespace parseTransactions

/-- Header matcher of `parseTransactions.py`: identical pattern except the
employee group is `(?P<emp>\S+)` (first whitespace-free token), used without
stripping. -/
def headerMatch (line : String) : Option Header :=
  (matchHeaderCore line.toList).bind fun g =>
    (empMatchB g.rest).map fun emp =>
      ⟨String.mk g.code, normDate g.mm g.dd g.yy, String.mk g.time,
       String.mk g.ref, String.mk emp⟩

/-- Line loop of `parseTransactions.py.parse_transaction_pdf`: lines are not
stripped; a non-header line is emitted when `rsplit(' ', 1)` yields two parts,
a header is active, and the trailing price parses. -/
def processLines : Option Header → List String → List TxnRecord
  | _, [] => []
  | st, line :: rest =>
    match headerMatch line with
    | some h => processLines (some h) rest
    | none =>
      match rsplitOnce line.toList, st with
      | some (d, p), some h =>
        match pyFloat? (String.mk (cleanPriceStr p)) with
        | none => processLines (some h) rest
        | some price =>
          ⟨h.client_code, h.date, h.time, h.reference, h.employee,
           pyStrip (String.mk d), price⟩ :: processLines (some h) rest
      | _, _ => processLines st rest

/-- `parse_transaction_pdf` of `parseTransactions.py`. -/
def parse_transaction_pdf (lines : List String) : List TxnRecord :=
  processLines none lines

end parseTransactions

/-- Gregorian leap year. -/
def isLeap (y : Nat) : Bool := (y % 4 = 0 && y % 100 ≠ 0) || y % 400 = 0

/-- Days in a month, as validated by `datetime`. -/
def daysInMonth (y m : Nat) : Nat :=
  if m = 2 then (if isLeap y then 29 else 28)
  else if m = 4 ∨ m = 6 ∨ m = 9 ∨ m = 11 then 30 else 31

/-- `datetime.strptime(s, '%m-%d-%y')`: one-or-two-digit month and day,
exactly two-digit year (`69..99 ↦ 19xx`, `00..68 ↦ 20xx`), whole input
consumed, and the combined date must be a real calendar date.  Returns
`(year, month, day)`. -/
def strptimeMDY (s : String) : Option (Nat × Nat × Nat) := do
  let (mmd, r1) ← matchDigits12 s.toList
  let r2 ← expectChar '-' r1
  let (ddd, r3) ← matchDigits12 r2
  let r4 ← expectChar '-' r3
  let (yyd, r5) ← matchDigits2 r4
  if r5 ≠ [] then none
  else
    let m := digitsToNat mmd
    let d := digitsToNat ddd
    let y2 := digitsToNat yyd
    let y := if y2 ≤ 68 then 2000 + y2 else 1900 + y2
    if 1 ≤ m ∧ m ≤ 12 ∧ 1 ≤ d ∧ d ≤ daysInMonth y m then some (y, m, d) else none

/-- `dt.strftime('%Y-%m-%d')` applied to a successful `strptime` of a journal
date header field. -/
def dateHead? (s : String) : Option String :=
  (strptimeMDY s).map fun ymd =>
    pad4 ymd.1 ++ "-" ++ pad2 ymd.2.1 ++ "-" ++ pad2 ymd.2.2

/-- One extracted journal entry of `txt_journal_parser.py`. -/
structure JEntry where
  date : String
  account : String
  amount : ℚ
deriving Repr, DecidableEq

namespace txt_journal

/-- Python `str.split(',')` on a character list: split at every comma,
keeping empty pieces (`""` splits to `[""]`). -/
def splitComma : List Char → List (List Char)
  | [] => [[]]
  | c :: rest =>
    let r := splitComma rest
    if c = ',' then [] :: r
    else (c :: r.headD []) :: r.tail

/-- Comma-split a stripped line and strip each part:
`parts = [p.strip() for p in line.split(',')]`. -/
def lineParts (line : String) : List String :=
  (splitComma line.toList).map (fun p => pyStrip ⟨p⟩)

/-- The date established by one raw line, if it is a date header: the line is
stripped, empty lines establish nothing, and otherwise the first
comma-separated field must parse with `strptime('%m-%d-%y')`. -/
def lineDate? (rawline : String) : Option String :=
  let line := pyStrip rawline
  if line = "" then none
  else dateHead? ((lineParts line).headD "")

/-- The entry contributed by one non-header stripped line under current date
`cur`: at least two comma fields, first field `"1105"`, and the second field
(with commas removed, vacuously) parsed as a float; an unparseable amount is
skipped with a warning. -/
def entryOfLine (cur : String) (line : String) : Option JEntry :=
  let parts := lineParts line
  if 2 ≤ parts.length ∧ parts.headD "" = "1105" then
    match pyFloat? (String.mk ((parts.getD 1 "").toList.filter (fun c => c ≠ ','))) with
    | some amt => some ⟨cur, "1105", amt⟩
    | none => none
  else none

/-- Line loop of `parse_journal_entries`: `current_date` starts out unset, a
date header line updates it, and account-`1105` lines are collected only once
a date is set. -/
def processLines : Option String → List String → List JEntry
  | _, [] => []
  | cur, rawline :: rest =>
    let line := pyStrip rawline
    if line = "" then processLines cur rest
    else
      match dateHead? ((lineParts line).headD "") with
      | some d => processLines (some d) rest
      | none =>
        match cur with
        | none => processLines none rest
        | some d =>
          match entryOfLine d line with
          | some e => e :: processLines (some d) rest
          | none => processLines (some d) rest

/-- `parse_journal_entries` of `txt_journal_parser.py` on a readable file
given as its list of lines: after the scan, an empty entry list is turned
into a raised `ValueError`. -/
def parse_journal_entries (txt_path : String) (lines : List String) :
    Except String (List JEntry) :=
  let entries := processLines none lines
  if entries = [] then
    .error ("No transactions for account 1105 found in " ++ txt_path)
  else .ok entries

end txt_journal

/-- A spreadsheet cell as `parse_transactions_excel.py` distinguishes them:
a string, a `datetime` value, a numeric (`int`/`float`) value, or a missing
value (pandas `NaN`). -/
inductive Cell where
  | str (s : String)
  | dt (y mo d hh mi ss : Nat)
  | num (q : ℚ)
  | empty
deriving Repr, DecidableEq

/-- Fractional decimal digits of `q ∈ [0, 1)`, up to `fuel` digits.  Exact on
the terminating decimals that occur in the reports in scope. -/
def decimalDigits : ℚ → Nat → List Char
  | _, 0 => []
  | q, n + 1 =>
    if q = 0 then []
    else
      let q10 := q * 10
      let d := (⌊q10⌋ : ℤ).toNat
      Char.ofNat (48 + d) :: decimalDigits (q10 - ⌊q10⌋) n

/-- Modelled from Python `str()` on a non-negative-or-negative float holding
an exact decimal: sign, integer part, point, fractional digits (`.0` when the
value is integral). -/
def floatRepr (q : ℚ) : String :=
  let sgn := if q < 0 then "-" else ""
  let aq := |q|
  let ip := (⌊aq⌋ : ℤ).toNat
  let ds := decimalDigits (aq - ⌊aq⌋) 17
  sgn ++ toString ip ++ "." ++ (if ds = [] then "0" else String.mk ds)

/-- Python `str(cell)`: strings unchanged, `datetime` values in
`YYYY-MM-DD HH:MM:SS` form, numbers as decimal floats, and pandas `NaN` as
`"nan"`. -/
def cellToStr : Cell → String
  | .str s => s
  | .dt y mo d hh mi ss =>
    pad4 y ++ "-" ++ pad2 mo ++ "-" ++ pad2 d ++ " " ++
      pad2 hh ++ ":" ++ pad2 mi ++ ":" ++ pad2 ss
  | .num q => floatRepr q
  | .empty => "nan"

/-- A table row indexed by (normalised) column name. -/
abbrev Row := List (String × Cell)

/-- `row[col]` for a discovered column.  The `.empty` default never fires for
columns discovered from the table's own column list; it models a pandas `NaN`
for a ragged row. -/
def rowGet (row : Row) (col : String) : Cell :=
  ((row.find? (fun kv => kv.fst = col)).map (fun kv => kv.snd)).getD .empty

/-- `normalise_columns` / `_normalise`:
`c.strip().lower().replace(' ', '_')` on each column name. -/
def normaliseColumn (c : String) : String :=
  ⟨((pyStrip c).toList.map Char.toLower).map (fun ch => if ch = ' ' then '_' else ch)⟩

/-- Normalise every column name. -/
def normalise_columns (cols : List String) : List String :=
  cols.map normaliseColumn

/-- Python substring containment `needle in hay`. -/
def containsSub (hay needle : String) : Bool :=
  (List.range (hay.toList.length + 1)).any
    (fun i => needle.toList.isPrefixOf (hay.toList.drop i))

/-- `find_column`: for each keyword in order, return the first column
containing it as a substring. -/
def find_column (cols : List String) (kws : List String) : Option String :=
  kws.findSome? (fun kw => cols.find? (fun col => containsSub col kw))

/-- The seven heuristically discovered columns of `parse_excel`. -/
structure ExcelCols where
  code_col : Option String
  date_col : Option String
  time_col : Option String
  reference_col : Option String
  employee_col : Option String
  desc_col : Option String
  price_col : Option String

/-- Column discovery of `parse_excel`, applied to the normalised column
names. -/
def discoverColumns (cols : List String) : ExcelCols :=
  let ncols := normalise_columns cols
  ⟨find_column ncols ["client_code", "code", "client"],
   find_column ncols ["date", "transaction_date"],
   find_column ncols ["time", "transaction_time"],
   find_column ncols ["reference", "ref", "#"],
   find_column ncols ["employee", "server"],
   find_column ncols ["description", "item", "detail"],
   find_column ncols ["price", "amount", "total", "unnamed:_6"]⟩

/-- The missing-mandatory-field names, in the fixed order the source builds
them (`description` is not mandatory). -/
def missingColumns (c : ExcelCols) : List String :=
  ([("client code", c.code_col), ("date", c.date_col), ("time", c.time_col),
    ("reference", c.reference_col), ("employee", c.employee_col),
    ("price", c.price_col)]).filterMap
    (fun nc => if nc.2.isNone then some nc.1 else none)

/-- Python `", ".join`. -/
def joinCommaSp : List String → String
  | [] => ""
  | [s] => s
  | s :: rest => s ++ ", " ++ joinCommaSp rest

/-- Modelled from `pd.to_datetime(str).strftime('%Y-%m-%d')` for the
ISO-format strings in scope (`YYYY-MM-DD`, calendar-checked); other pandas
date spellings are outside the model. -/
def pdToDatetimeIso? (s : String) : Option String := do
  let (y4, r1) ← matchDigits1 s.toList
  if y4.length ≠ 4 then none
  else do
    let r2 ← expectChar '-' r1
    let (mmd, r3) ← matchDigits2 r2
    let r4 ← expectChar '-' r3
    let (ddd, r5) ← matchDigits2 r4
    if r5 ≠ [] then none
    else
      let y := digitsToNat y4
      let m := digitsToNat mmd
      let d := digitsToNat ddd
      if 1 ≤ m ∧ m ≤ 12 ∧ 1 ≤ d ∧ d ≤ daysInMonth y m then
        some (pad4 y ++ "-" ++ pad2 m ++ "-" ++ pad2 d)
      else none

/-- The ISO date string for a date cell: a `datetime` cell is formatted with
`strftime('%Y-%m-%d')`; any other non-missing cell goes through
`pd.to_datetime(str(...))`, with failure meaning the row is skipped. -/
def dateToIso : Cell → Option String
  | .dt y mo d _ _ _ => some (pad4 y ++ "-" ++ pad2 mo ++ "-" ++ pad2 d)
  | c => pdToDatetimeIso? (cellToStr c)

/-- Spreadsheet day-fraction to wall-clock `HH:MM`
(`datetime(1899, 12, 30) + pd.to_timedelta(val, unit='d')`, truncated to
seconds as `strftime` does). -/
def excelFracToTime (q : ℚ) : String :=
  let frac := q - ⌊q⌋
  let totalSecs := ((⌊frac * 86400⌋ : ℤ)).toNat
  pad2 (totalSecs / 3600 % 24) ++ ":" ++ pad2 (totalSecs % 3600 / 60)

/-- The time string for a time cell: `datetime` cells via `%H:%M`, numeric
cells via the day-fraction conversion, missing cells via the failing
`NaN`-timedelta conversion (empty string), anything else via
`str(...).strip()`. -/
def timeToStr : Cell → String
  | .dt _ _ _ hh mi _ => pad2 hh ++ ":" ++ pad2 mi
  | .num q => excelFracToTime q
  | .empty => ""
  | c => pyStrip (cellToStr c)

/-- Python `s.lstrip('#')`: drop every leading `#`. -/
def lstripHash (s : String) : String :=
  ⟨s.toList.dropWhile (fun c => c = '#')⟩

/-- Python `s.split('\n', 1)`. -/
def splitNewlineOnce (s : String) : String × Option String :=
  let cs := s.toList
  match cs.dropWhile (fun c => c ≠ '\n') with
  | [] => (⟨cs.takeWhile (fun c => c ≠ '\n')⟩, none)
  | _ :: t => (⟨cs.takeWhile (fun c => c ≠ '\n')⟩, some ⟨t⟩)

/-- The per-row body of `parse_excel`: skip rows with an empty or `nan` code
or an unparseable date, extract time/reference/description, and default an
unparseable price to `0.0`.  `descC` is the description column after the
source's fallback `desc_col = reference_col`. -/
def processRow (codeC dateC timeC refC empC descC priceC : String) (row : Row) :
    Option TxnRecord :=
  let code := pyStrip (cellToStr (rowGet row codeC))
  if code = "" ∨ pyLower code = "nan" then none
  else if rowGet row dateC = Cell.empty then none
  else
    match dateToIso (rowGet row dateC) with
    | none => none
    | some dateIso =>
      let timeStr := timeToStr (rowGet row timeC)
      let refVal := pyStrip (cellToStr (rowGet row refC))
      let refDesc :=
        if descC = refC then
          match splitNewlineOnce refVal with
          | (p0, none) => (pyStrip (lstripHash p0), "")
          | (p0, some p1) => (pyStrip (lstripHash p0), pyStrip p1)
        else (lstripHash refVal, pyStrip (cellToStr (rowGet row descC)))
      let price :=
        (pyFloat? (pyStrip ⟨cleanPriceStr (cellToStr (rowGet row priceC)).toList⟩)).getD 0
      some ⟨code, dateIso, timeStr, refDesc.1,
            pyStrip (cellToStr (rowGet row empC)), refDesc.2, price⟩

/-- `parse_excel` of `parse_transactions_excel.py`, starting from the table
obtained after pandas header-row autodetection: `cols` are the raw column
names of that table and each row is indexed by the normalised names (the
source overwrites `df.columns` with the normalised names before row
iteration).  Missing mandatory columns raise a `ValueError` listing them. -/
def parse_excel (cols : List String) (rows : List Row) :
    Except String (List TxnRecord) :=
  let c := discoverColumns cols
  if missingColumns c ≠ [] then
    .error ("Missing expected columns: " ++ joinCommaSp (missingColumns c))
  else
    let refC := c.reference_col.getD ""
    let descC := (c.desc_col.getD refC)
    .ok (rows.filterMap
      (processRow (c.code_col.getD "") (c.date_col.getD "") (c.time_col.getD "")
        refC (c.employee_col.getD "") descC (c.price_col.getD "")))

/-- The visit grouping key of `etl_load.py`:
`(row['client_code'], row['date'], row['time'], row['reference'])`. -/
def visitKey (r : TxnRecord) : String × String × String × String :=
  (r.client_code, r.date, r.time, r.reference)

/-- First-occurrence deduplication, accumulating the keys already seen. -/
def firstDedupAux {α : Type} [DecidableEq α] (seen : List α) : List α → List α
  | [] => []
  | a :: rest =>
    if a ∈ seen then firstDedupAux seen rest
    else a :: firstDedupAux (a :: seen) rest

/-- First-occurrence deduplication: the iteration order of the keys of a
Python `defaultdict` filled by appending. -/
def firstDedup {α : Type} [DecidableEq α] (l : List α) : List α :=
  firstDedupAux [] l

/-- A row of the `visits` table as `load_transactions` inserts it (the
randomly generated `id` is external and omitted; the parent-child link is
modelled by pairing, below). -/
structure Visit where
  client_code : String
  date : String
  time : String
  reference : String
  employee : String
  subtotal : ℚ
  tax_tps : ℚ
  tax_tvq : ℚ
  tip : ℚ
  discount : ℚ
  total : ℚ
deriving Repr, DecidableEq

/-- A row of the `visit_items` table (minus the parent `visit_id`). -/
structure VisitItem where
  description : String
  price : ℚ
deriving Repr, DecidableEq

/-- The member records of one visit key, in input order
(`visits[key].append(row)`). -/
def groupFor (rows : List TxnRecord) (k : String × String × String × String) :
    List TxnRecord :=
  rows.filter (fun r => visitKey r = k)

/-- The `visits` row synthesized for one key: employee from the first member,
`subtotal = total = sum of member prices`, taxes/tip/discount zero. -/
def mkVisit (k : String × String × String × String) (items : List TxnRecord) :
    Visit :=
  let total := (items.map (fun r => r.price)).sum
  ⟨k.1, k.2.1, k.2.2.1, k.2.2.2,
   ((items.head?).map (fun r => r.employee)).getD "", total, 0, 0, 0, 0, total⟩

/-- `load_transactions` of `etl_load.py` on the already-read CSV rows (the
CSV round-trip re-parses each price with `float`, modelled as the rational it
wrote): one `(Visit, its VisitItem rows)` pair per distinct key, keys in
first-occurrence order. -/
def load_transactions (rows : List TxnRecord) : List (Visit × List VisitItem) :=
  (firstDedup (rows.map visitKey)).map (fun k =>
    (mkVisit k (groupFor rows k),
     (groupFor rows k).map (fun r => (⟨r.description, r.price⟩ : VisitItem))))

/-- The visit key stored on a synthesized visit row. -/
def keyOfVisit (v : Visit) : String × String × String × String :=
  (v.client_code, v.date, v.time, v.reference)

/-- A persisted `visits` row as `reconcile` reads it
(`SELECT SUM(total) ... WHERE client_code = ? AND date LIKE 'period-%'`). -/
structure VisitRow where
  client_code : String
  date : String
  total : ℚ
deriving Repr, DecidableEq

/-- The summed visit totals for one client code in one period.  SQL
`date LIKE '{period}-%'` is a prefix test for the wildcard-free `YYYY-MM`
period strings in scope; `SUM` of no rows is `NULL`, which the source maps to
`0.0`, matching the empty sum. -/
def sumTotals (visits : List VisitRow) (code period : String) : ℚ :=
  ((visits.filter
      (fun v => v.client_code == code
        && (period ++ "-").toList.isPrefixOf v.date.toList)).map
    (fun v => v.total)).sum

/-- One reconciliation discrepancy row. -/
structure Discrepancy where
  client_code : String
  expected_balance : ℚ
  actual_total : ℚ
  difference : ℚ
deriving Repr, DecidableEq

/-- The comparison loop of `reconcile` of `reconcile.py`: iterate the loaded
monthly report (`code, expected_balance` in dict insertion order), compute
`diff = actual - expected`, and keep a `Discrepancy` exactly when
`abs(diff) > 0.01`. -/
def reconcile (report : List (String × ℚ)) (visits : List VisitRow)
    (period : String) : List Discrepancy :=
  report.filterMap (fun ce =>
    let actual := sumTotals visits ce.1 period
    let diff := actual - ce.2
    if |diff| > 1 / 100 then some ⟨ce.1, ce.2, actual, diff⟩ else none)

/-- Lookup in the insertion-ordered dict model. -/
def dictGet? : List (String × ℚ) → String → Option ℚ
  | [], _ => none
  | (k, v) :: rest, c => if k = c then some v else dictGet? rest c

/-- `report[code] = report.get(code, 0.0) + balance` on the
insertion-ordered dict model: update in place, or append a fresh key. -/
def dictAdd : List (String × ℚ) → String → ℚ → List (String × ℚ)
  | [], c, b => [(c, b)]
  | (k, v) :: rest, c, b =>
    if k = c then (k, v + b) :: rest else (k, v) :: dictAdd rest c b

/-- One row of the monthly-report loop of `load_monthly_report`: skip empty
or `nan` codes, skip rows whose cleaned balance fails to parse, and otherwise
accumulate the balance onto the code. -/
def reportRowStep (rep : List (String × ℚ)) (row : String × String) :
    List (String × ℚ) :=
  let code := pyStrip row.1
  if code = "" ∨ pyLower code = "nan" then rep
  else
    match pyFloat? (pyStrip ⟨cleanPriceStr row.2.toList⟩) with
    | none => rep
    | some b => dictAdd rep code b

/-- The row loop of `load_monthly_report` of `reconcile.py`, after column
discovery, on the stringified `(code, balance)` cell pairs. -/
def load_monthly_report_rows (rows : List (String × String)) :
    List (String × ℚ) :=
  rows.foldl reportRowStep []

/-- The parseable balance contributions of `rows` to a given code, used to
state what `load_monthly_report_rows` accumulates. -/
def reportContribs (rows : List (String × String)) (code : String) : List ℚ :=
  rows.filterMap (fun row =>
    let c := pyStrip row.1
    if c = "" ∨ pyLower c = "nan" then none
    else if c = code then pyFloat? (pyStrip ⟨cleanPriceStr row.2.toList⟩)
    else none)

/-! ## Shared lemmas about `reconcile` -/

theorem reconcile_nil (visits : List VisitRow) (period : String) :
    reconcile [] visits period = [] := rfl

theorem reconcile_cons (code : String) (e : ℚ) (report : List (String × ℚ))
    (visits : List VisitRow) (period : String) :
    reconcile ((code, e) :: report) visits period =
      (if |sumTotals visits code period - e| > 1 / 100 then
        [⟨code, e, sumTotals visits code period, sumTotals visits code period - e⟩]
      else []) ++ reconcile report visits period := by
  simp only [reconcile, List.filterMap_cons]
  split_ifs <;> simp

theorem mem_reconcile_iff (report : List (String × ℚ)) (visits : List VisitRow)
    (period : String) (d : Discrepancy) :
    d ∈ reconcile report visits period ↔
      ∃ ce ∈ report,
        d = ⟨ce.1, ce.2, sumTotals visits ce.1 period,
             sumTotals visits ce.1 period - ce.2⟩ ∧
        |sumTotals visits ce.1 period - ce.2| > 1 / 100 := by
  simp only [reconcile, List.mem_filterMap]
  constructor
  · rintro ⟨⟨c, e⟩, hmem, hf⟩
    by_cases h : |sumTotals visits c period - e| > 1 / 100
    · rw [if_pos h] at hf
      exact ⟨(c, e), hmem, (Option.some.inj hf).symm, h⟩
    · rw [if_neg h] at hf
      exact absurd hf (by simp)
  · rintro ⟨⟨c, e⟩, hmem, hd, h⟩
    exact ⟨(c, e), hmem, by rw [if_pos h, hd]⟩

/-- Claim C3: `reconcile` with tolerance `0.01` emits a `Discrepancy` for a
report code if and only if `abs(actual_total - expected_balance) > 0.01`
(with `difference = actual_total - expected_balance`); a difference of
exactly `0.01` is not reported, and a difference of `0.010001` is
reported. -/
theorem C3_reconcile_tolerance :
    (∀ (report : List (String × ℚ)) (visits : List VisitRow)
        (period code : String) (expected : ℚ),
      ((⟨code, expected, sumTotals visits code period,
          sumTotals visits code period - expected⟩ : Discrepancy) ∈
            reconcile report visits period ↔
        (code, expected) ∈ report ∧
          |sumTotals visits code period - expected| > 1 / 100))
    ∧ (∀ (report : List (String × ℚ)) (visits : List VisitRow)
        (period : String) (d : Discrepancy), d ∈ reconcile report visits period →
          d.difference = d.actual_total - d.expected_balance
          ∧ d.actual_total = sumTotals visits d.client_code period
          ∧ |d.difference| > 1 / 100)
    ∧ reconcile [("A", 0)] [⟨"A", "2025-07-01", 1 / 100⟩] "2025-07" = []
    ∧ reconcile [("A", 0)] [⟨"A", "2025-07-01", 10001 / 1000000⟩] "2025-07"
        = [⟨"A", 0, 10001 / 1000000, 10001 / 1000000⟩] := by
  refine ⟨?_, ?_, ?_, ?_⟩
  · intro report visits period code expected
    rw [mem_reconcile_iff]
    constructor
    · rintro ⟨⟨c, e⟩, hmem, hd, h⟩
      simp only [Discrepancy.mk.injEq] at hd
      obtain ⟨hc, he, -, -⟩ := hd
      subst hc
      subst he
      exact ⟨hmem, h⟩
    · rintro ⟨hmem, h⟩
      exact ⟨(code, expected), hmem, rfl, h⟩
  · intro report visits period d hd
    rw [mem_reconcile_iff] at hd
    obtain ⟨⟨c, e⟩, hmem, hd, h⟩ := hd
    subst hd
    exact ⟨rfl, rfl, h⟩
  · have hsum : sumTotals [⟨"A", "2025-07-01", 1 / 100⟩] "A" "2025-07" = 1 / 100 := by
      rw [show sumTotals [⟨"A", "2025-07-01", 1 / 100⟩] "A" "2025-07"
            = [(1 : ℚ) / 100].sum from rfl]
      simp
    rw [reconcile_cons, reconcile_nil, hsum, if_neg, List.append_nil]
    rw [sub_zero, abs_of_nonneg] <;> norm_num
  · have hsum : sumTotals [⟨"A", "2025-07-01", 10001 / 1000000⟩] "A" "2025-07"
        = 10001 / 1000000 := by
      rw [show sumTotals [⟨"A", "2025-07-01", 10001 / 1000000⟩] "A" "2025-07"
            = [(10001 : ℚ) / 1000000].sum from rfl]
      simp
    rw [reconcile_cons, reconcile_nil, hsum, if_pos, List.append_nil, sub_zero]
    rw [sub_zero, abs_of_nonneg] <;> norm_num

/-- Witness for C3 at the spec's own example: report entry
`("007", 50.00)` against one visit totalling `12.50` yields a member
discrepancy whose `difference` is `actual - expected`. -/
theorem C3_reconcile_tolerance_witness :
    ((⟨"007", 50, sumTotals [⟨"007", "2025-07-04", 25 / 2⟩] "007" "2025-07",
        sumTotals [⟨"007", "2025-07-04", 25 / 2⟩] "007" "2025-07" - 50⟩ : Discrepancy) ∈
      reconcile [("007", 50)] [⟨"007", "2025-07-04", 25 / 2⟩] "2025-07")
    ∧ (⟨"007", 50, sumTotals [⟨"007", "2025-07-04", 25 / 2⟩] "007" "2025-07",
        sumTotals [⟨"007", "2025-07-04", 25 / 2⟩] "007" "2025-07" - 50⟩ : Discrepancy).difference
      = (⟨"007", 50, sumTotals [⟨"007", "2025-07-04", 25 / 2⟩] "007" "2025-07",
          sumTotals [⟨"007", "2025-07-04", 25 / 2⟩] "007" "2025-07" - 50⟩ : Discrepancy).actual_total
        - 50 := by
  have hsum : sumTotals [⟨"007", "2025-07-04", 25 / 2⟩] "007" "2025-07" = 25 / 2 := by
    rw [show sumTotals [⟨"007", "2025-07-04", 25 / 2⟩] "007" "2025-07"
          = [(25 : ℚ) / 2].sum from rfl]
    simp
  have h1 := (C3_reconcile_tolerance.1 [("007", 50)] [⟨"007", "2025-07-04", 25 / 2⟩]
      "2025-07" "007" 50).mpr
    ⟨List.mem_singleton.mpr rfl, by rw [hsum, abs_sub_comm, abs_of_nonneg] <;> norm_num⟩
  have h2 := C3_reconcile_tolerance.2.1 [("007", 50)] [⟨"007", "2025-07-04", 25 / 2⟩]
    "2025-07" _ h1
  exact ⟨h1, h2.1⟩

/-- Claim C7: reconciliation is one-directional — every emitted discrepancy
comes from a report entry (codes present only in the visits are never
flagged), and a reported code with no matching visits in the period is
compared with `actual_total = 0.0`. -/
theorem C7_one_directional_reconciliation :
    (∀ (report : List (String × ℚ)) (visits : List VisitRow) (period : String)
        (d : Discrepancy), d ∈ reconcile report visits period →
        (d.client_code, d.expected_balance) ∈ report
        ∧ d.actual_total = sumTotals visits d.client_code period)
    ∧ (∀ (visits : List VisitRow) (code period : String),
        (∀ v ∈ visits,
          (v.client_code == code
            && (period ++ "-").toList.isPrefixOf v.date.toList) = false) →
        sumTotals visits code period = 0) := by
  constructor
  · intro report visits period d hd
    rw [mem_reconcile_iff] at hd
    obtain ⟨⟨c, e⟩, hmem, hd, -⟩ := hd
    subst hd
    exact ⟨hmem, rfl⟩
  · intro visits code period h
    have hfil : visits.filter
        (fun v => v.client_code == code
          && (period ++ "-").toList.isPrefixOf v.date.toList) = [] := by
      rw [List.filter_eq_nil_iff]
      intro v hv hc
      rw [h v hv] at hc
      exact Bool.false_ne_true hc
    rw [sumTotals, hfil]
    simp

/-- Witness for C7: code `"B"` is reported with no matching visit, so it is
compared against `actual_total = 0`; the visit-only code `"X"` never
surfaces. -/
theorem C7_one_directional_reconciliation_witness :
    (("B", (5 : ℚ)) ∈ [("B", (5 : ℚ))])
    ∧ sumTotals [⟨"X", "2025-07-01", 5⟩] "B" "2025-07" = 0 := by
  have h0 := C7_one_directional_reconciliation.2 [⟨"X", "2025-07-01", 5⟩] "B" "2025-07"
    (by decide)
  have hmem : (⟨"B", 5, sumTotals [⟨"X", "2025-07-01", 5⟩] "B" "2025-07",
      sumTotals [⟨"X", "2025-07-01", 5⟩] "B" "2025-07" - 5⟩ : Discrepancy) ∈
        reconcile [("B", 5)] [⟨"X", "2025-07-01", 5⟩] "2025-07" :=
    (mem_reconcile_iff _ _ _ _).mpr
      ⟨("B", 5), List.mem_singleton.mpr rfl, rfl, by
        rw [h0, zero_sub, abs_neg, abs_of_nonneg] <;> norm_num⟩
  have h1 := C7_one_directional_reconciliation.1 [("B", 5)] [⟨"X", "2025-07-01", 5⟩]
    "2025-07" _ hmem
  exact ⟨h1.1, h0⟩

/-! ## Lemmas about the monthly-report dict accumulation -/

theorem dictGet_dictAdd_self (rep : List (String × ℚ)) (c : String) (b : ℚ) :
    dictGet? (dictAdd rep c b) c = some ((dictGet? rep c).getD 0 + b) := by
  induction rep with
  | nil => simp [dictAdd, dictGet?]
  | cons kv rest ih =>
    obtain ⟨k, v⟩ := kv
    by_cases h : k = c
    · subst h
      simp [dictAdd, dictGet?]
    · simp [dictAdd, dictGet?, h, ih]

theorem dictGet_dictAdd_ne (rep : List (String × ℚ)) (c : String) (b : ℚ)
    (c' : String) (h : c ≠ c') :
    dictGet? (dictAdd rep c b) c' = dictGet? rep c' := by
  induction rep with
  | nil => simp [dictAdd, dictGet?, h]
  | cons kv rest ih =>
    obtain ⟨k, v⟩ := kv
    by_cases hk : k = c
    · subst hk
      simp [dictAdd, dictGet?, h]
    · simp [dictAdd, dictGet?, hk, ih]

theorem dictGet_foldl_reportRowStep (rows : List (String × String))
    (acc : List (String × ℚ)) (code : String) :
    dictGet? (rows.foldl reportRowStep acc) code =
      match dictGet? acc code with
      | some v => some (v + (reportContribs rows code).sum)
      | none =>
        if reportContribs rows code = [] then none
        else some (reportContribs rows code).sum := by
  induction rows generalizing acc with
  | nil =>
    cases hacc : dictGet? acc code <;> simp [reportContribs, hacc]
  | cons row rest ih =>
    rw [List.foldl_cons]
    by_cases h1 : pyStrip row.1 = "" ∨ pyLower (pyStrip row.1) = "nan"
    · have hstep : reportRowStep acc row = acc := by
        simp only [reportRowStep, if_pos h1]
      have hcon : reportContribs (row :: rest) code = reportContribs rest code := by
        simp only [reportContribs, List.filterMap_cons, if_pos h1]
      rw [hstep, ih, hcon]
    · cases hb : pyFloat? (pyStrip ⟨cleanPriceStr row.2.toList⟩) with
      | none =>
        have hstep : reportRowStep acc row = acc := by
          simp only [reportRowStep, if_neg h1, hb]
        have hcon : reportContribs (row :: rest) code = reportContribs rest code := by
          by_cases h2 : pyStrip row.1 = code
          · simp only [reportContribs, List.filterMap_cons, if_neg h1, if_pos h2, hb]
          · simp only [reportContribs, List.filterMap_cons, if_neg h1, if_neg h2]
        rw [hstep, ih, hcon]
      | some b =>
        by_cases h2 : pyStrip row.1 = code
        · have hstep : reportRowStep acc row = dictAdd acc code b := by
            simp only [reportRowStep, hb, h2]
            exact if_neg (h2 ▸ h1)
          have hcon : reportContribs (row :: rest) code
              = b :: reportContribs rest code := by
            simp only [reportContribs, List.filterMap_cons, if_neg h1, if_pos h2, hb]
          rw [hstep, ih, hcon, dictGet_dictAdd_self]
          cases hacc : dictGet? acc code <;> simp [List.sum_cons, add_assoc]
        · have hstep : reportRowStep acc row = dictAdd acc (pyStrip row.1) b := by
            simp only [reportRowStep, if_neg h1, hb]
          have hcon : reportContribs (row :: rest) code = reportContribs rest code := by
            simp only [reportContribs, List.filterMap_cons, if_neg h1, if_neg h2]
          rw [hstep, ih, hcon, dictGet_dictAdd_ne _ _ _ _ h2]

/-- Claim C8: loading the monthly report sums the balances of rows sharing a
client code (rather than overwriting), skipping rows whose balance fails to
parse: the loaded balance for a code is exactly the sum of its parseable
contributions, and the spec's example rows `10.00` and `5.00` for code
`"42"` (with an unparseable row ignored) yield `15.00`. -/
theorem C8_report_codes_accumulate :
    (∀ (rows : List (String × String)) (code : String),
      dictGet? (load_monthly_report_rows rows) code =
        if reportContribs rows code = [] then none
        else some (reportContribs rows code).sum)
    ∧ dictGet? (load_monthly_report_rows
        [("42", "10.00"), ("42", "oops"), ("42", "5.00")]) "42" = some 15 := by
  constructor
  · intro rows code
    rw [load_monthly_report_rows, dictGet_foldl_reportRowStep]
    rfl
  · rw [show dictGet? (load_monthly_report_rows
          [("42", "10.00"), ("42", "oops"), ("42", "5.00")]) "42"
        = some (1 * ((10 : ℚ) + 0 / 10 ^ 2) + 1 * ((5 : ℚ) + 0 / 10 ^ 2)) from rfl]
    norm_num


/-! ## Lemmas about first-occurrence deduplication -/

theorem mem_firstDedupAux {α : Type} [DecidableEq α] (l : List α) (seen : List α)
    (a : α) : a ∈ firstDedupAux seen l ↔ a ∈ l ∧ a ∉ seen := by
  induction l generalizing seen with
  | nil => simp [firstDedupAux]
  | cons x rest ih =>
    by_cases hx : x ∈ seen
    · rw [firstDedupAux, if_pos hx, ih]
      constructor
      · rintro ⟨h1, h2⟩
        exact ⟨List.mem_cons_of_mem _ h1, h2⟩
      · rintro ⟨h1, h2⟩
        rcases List.mem_cons.mp h1 with h | h
        · exact absurd (h ▸ hx) h2
        · exact ⟨h, h2⟩
    · rw [firstDedupAux, if_neg hx]
      by_cases ha : a = x
      · subst ha
        simp [hx]
      · simp only [List.mem_cons, ha, false_or, ih]

theorem nodup_firstDedupAux {α : Type} [DecidableEq α] (l : List α)
    (seen : List α) : (firstDedupAux seen l).Nodup := by
  induction l generalizing seen with
  | nil => simp [firstDedupAux]
  | cons x rest ih =>
    by_cases hx : x ∈ seen
    · rw [firstDedupAux, if_pos hx]
      exact ih seen
    · rw [firstDedupAux, if_neg hx]
      refine List.Nodup.cons ?_ (ih (x :: seen))
      intro hmem
      exact ((mem_firstDedupAux _ _ _).mp hmem).2 (List.mem_cons_self _ _)

theorem mem_firstDedup {α : Type} [DecidableEq α] (l : List α) (a : α) :
    a ∈ firstDedup l ↔ a ∈ l := by
  rw [firstDedup, mem_firstDedupAux]
  simp

theorem nodup_firstDedup {α : Type} [DecidableEq α] (l : List α) :
    (firstDedup l).Nodup := nodup_firstDedupAux l []

theorem keyOfVisit_mkVisit (k : String × String × String × String)
    (items : List TxnRecord) : keyOfVisit (mkVisit k items) = k := rfl

theorem mkVisit_subtotal (k : String × String × String × String)
    (items : List TxnRecord) :
    (mkVisit k items).subtotal = (items.map (fun r => r.price)).sum := rfl

/-- Claim C4: the aggregator produces exactly one `Visit` per distinct
`(client_code, date, time, reference)` key — the output's key list is the
nodup first-occurrence deduplication of the input keys — and each visit has
`subtotal = total = sum of member prices`, employee from the first member,
zero tax/tip/discount, and one `VisitItem` per member preserving
`description` and `price`. -/
theorem C4_aggregator_shape (rows : List TxnRecord) :
    ((load_transactions rows).map (fun p => keyOfVisit p.1)
        = firstDedup (rows.map visitKey))
    ∧ (firstDedup (rows.map visitKey)).Nodup
    ∧ (∀ k, k ∈ firstDedup (rows.map visitKey) ↔ k ∈ rows.map visitKey)
    ∧ (∀ (v : Visit) (items : List VisitItem),
        (v, items) ∈ load_transactions rows →
          v.subtotal = ((groupFor rows (keyOfVisit v)).map (fun r => r.price)).sum
          ∧ v.total = v.subtotal
          ∧ v.employee
              = (((groupFor rows (keyOfVisit v)).head?).map (fun r => r.employee)).getD ""
          ∧ v.tax_tps = 0 ∧ v.tax_tvq = 0 ∧ v.tip = 0 ∧ v.discount = 0
          ∧ items = (groupFor rows (keyOfVisit v)).map
              (fun r => (⟨r.description, r.price⟩ : VisitItem))) := by
  refine ⟨?_, nodup_firstDedup _, fun k => mem_firstDedup _ k, ?_⟩
  · rw [load_transactions, List.map_map]
    have hcomp : ((fun p : Visit × List VisitItem => keyOfVisit p.1) ∘
        fun k => (mkVisit k (groupFor rows k),
          (groupFor rows k).map (fun r => (⟨r.description, r.price⟩ : VisitItem))))
        = fun k => k := by
      funext k
      rfl
    rw [hcomp]
    exact List.map_id _
  · intro v items hmem
    rw [load_transactions, List.mem_map] at hmem
    obtain ⟨k, -, hk⟩ := hmem
    have hv : v = mkVisit k (groupFor rows k) := (congrArg Prod.fst hk).symm
    have hitems : items = (groupFor rows k).map
        (fun r => (⟨r.description, r.price⟩ : VisitItem)) :=
      (congrArg Prod.snd hk).symm
    subst hv
    rw [keyOfVisit_mkVisit]
    exact ⟨rfl, rfl, rfl, rfl, rfl, rfl, rfl, hitems⟩

/-- Witness for C4 at the spec's example: two records with the same key and
prices `10.00` and `2.50` aggregate into one visit with
`subtotal = total = 12.50` and two `VisitItem` rows. -/
theorem C4_aggregator_shape_witness :
    (mkVisit ("7", "2025-07-01", "10:30", "44")
        (groupFor
          [⟨"7", "2025-07-01", "10:30", "44", "ana", "Coffee", 10⟩,
           ⟨"7", "2025-07-01", "10:30", "44", "ana", "Cake", 5 / 2⟩]
          ("7", "2025-07-01", "10:30", "44"))).subtotal = 25 / 2
    ∧ (mkVisit ("7", "2025-07-01", "10:30", "44")
        (groupFor
          [⟨"7", "2025-07-01", "10:30", "44", "ana", "Coffee", 10⟩,
           ⟨"7", "2025-07-01", "10:30", "44", "ana", "Cake", 5 / 2⟩]
          ("7", "2025-07-01", "10:30", "44"))).total
      = (mkVisit ("7", "2025-07-01", "10:30", "44")
        (groupFor
          [⟨"7", "2025-07-01", "10:30", "44", "ana", "Coffee", 10⟩,
           ⟨"7", "2025-07-01", "10:30", "44", "ana", "Cake", 5 / 2⟩]
          ("7", "2025-07-01", "10:30", "44"))).subtotal
    ∧ ((groupFor
          [⟨"7", "2025-07-01", "10:30", "44", "ana", "Coffee", 10⟩,
           ⟨"7", "2025-07-01", "10:30", "44", "ana", "Cake", 5 / 2⟩]
          ("7", "2025-07-01", "10:30", "44")).map
        (fun r => (⟨r.description, r.price⟩ : VisitItem))).length = 2 := by
  have h := (C4_aggregator_shape
      [⟨"7", "2025-07-01", "10:30", "44", "ana", "Coffee", 10⟩,
       ⟨"7", "2025-07-01", "10:30", "44", "ana", "Cake", 5 / 2⟩]).2.2.2
    (mkVisit ("7", "2025-07-01", "10:30", "44")
      (groupFor
        [⟨"7", "2025-07-01", "10:30", "44", "ana", "Coffee", 10⟩,
         ⟨"7", "2025-07-01", "10:30", "44", "ana", "Cake", 5 / 2⟩]
        ("7", "2025-07-01", "10:30", "44")))
    ((groupFor
        [⟨"7", "2025-07-01", "10:30", "44", "ana", "Coffee", 10⟩,
         ⟨"7", "2025-07-01", "10:30", "44", "ana", "Cake", 5 / 2⟩]
        ("7", "2025-07-01", "10:30", "44")).map
      (fun r => (⟨r.description, r.price⟩ : VisitItem)))
    (List.Mem.head _)
  rw [keyOfVisit_mkVisit] at h
  refine ⟨?_, h.2.1, by rfl⟩
  rw [h.1]
  rw [show (groupFor
      [⟨"7", "2025-07-01", "10:30", "44", "ana", "Coffee", 10⟩,
       ⟨"7", "2025-07-01", "10:30", "44", "ana", "Cake", 5 / 2⟩]
      ("7", "2025-07-01", "10:30", "44")).map (fun r => r.price)
    = [10, (5 : ℚ) / 2] from rfl]
  norm_num

/-- Claim C5: aggregation is order-independent per key — permuting the input
records permutes each key's member list (same member multiset) and leaves
every key's subtotal unchanged. -/
theorem C5_grouping_order_independent (rows1 rows2 : List TxnRecord)
    (h : rows1.Perm rows2) (k : String × String × String × String) :
    (groupFor rows1 k).Perm (groupFor rows2 k)
    ∧ (mkVisit k (groupFor rows1 k)).subtotal
        = (mkVisit k (groupFor rows2 k)).subtotal := by
  have hp : (groupFor rows1 k).Perm (groupFor rows2 k) := h.filter _
  refine ⟨hp, ?_⟩
  rw [mkVisit_subtotal, mkVisit_subtotal]
  exact (hp.map _).sum_eq

/-- Witness for C5: swapping two records that share a key leaves the key's
member multiset and subtotal unchanged. -/
theorem C5_grouping_order_independent_witness :
    (groupFor [⟨"7", "2025-07-01", "10:30", "44", "ana", "Coffee", 10⟩,
               ⟨"7", "2025-07-01", "10:30", "44", "ana", "Cake", 5 / 2⟩]
        ("7", "2025-07-01", "10:30", "44")).Perm
      (groupFor [⟨"7", "2025-07-01", "10:30", "44", "ana", "Cake", 5 / 2⟩,
                 ⟨"7", "2025-07-01", "10:30", "44", "ana", "Coffee", 10⟩]
        ("7", "2025-07-01", "10:30", "44"))
    ∧ (mkVisit ("7", "2025-07-01", "10:30", "44")
        (groupFor [⟨"7", "2025-07-01", "10:30", "44", "ana", "Coffee", 10⟩,
                   ⟨"7", "2025-07-01", "10:30", "44", "ana", "Cake", 5 / 2⟩]
          ("7", "2025-07-01", "10:30", "44"))).subtotal
      = (mkVisit ("7", "2025-07-01", "10:30", "44")
          (groupFor [⟨"7", "2025-07-01", "10:30", "44", "ana", "Cake", 5 / 2⟩,
                     ⟨"7", "2025-07-01", "10:30", "44", "ana", "Coffee", 10⟩]
            ("7", "2025-07-01", "10:30", "44"))).subtotal :=
  C5_grouping_order_independent _ _
    (List.Perm.swap ⟨"7", "2025-07-01", "10:30", "44", "ana", "Cake", 5 / 2⟩
      ⟨"7", "2025-07-01", "10:30", "44", "ana", "Coffee", 10⟩ [])
    ("7", "2025-07-01", "10:30", "44")


/-- Counterexample for C2: a readable document with zero extractable records
makes `parse_journal_entries` fail with a `ValueError` instead of returning
an empty sequence. -/
theorem C2_zero_records_cex :
    txt_journal.parse_journal_entries "j.txt" ["hello"]
      = .error "No transactions for account 1105 found in j.txt" := rfl

/-- Claim C2 (amended): `parse_transaction_pdf` yields an empty record list
without failing when nothing is extractable, but `parse_journal_entries`
treats zero extracted records as an error — it never returns an empty
sequence, raising `ValueError` instead. -/
theorem C2_zero_records_amended :
    (∀ (txt_path : String) (lines : List String),
      (∃ msg, txt_journal.parse_journal_entries txt_path lines = .error msg)
      ∨ (∃ e es, txt_journal.parse_journal_entries txt_path lines = .ok (e :: es)))
    ∧ parse_transactions.parse_transaction_pdf ["no extractable records here"] = [] := by
  constructor
  · intro txt_path lines
    cases hl : txt_journal.processLines none lines with
    | nil =>
      left
      refine ⟨"No transactions for account 1105 found in " ++ txt_path, ?_⟩
      rw [txt_journal.parse_journal_entries, hl, if_pos rfl]
    | cons e es =>
      right
      refine ⟨e, es, ?_⟩
      rw [txt_journal.parse_journal_entries, hl, if_neg (by simp)]
  · rfl

/-- Claim C9: when column discovery fails to locate any mandatory field,
`parse_excel` fails with a single fatal error listing all the missing field
names, and produces no records; a sheet with no usable columns reports all
six mandatory names. -/
theorem C9_missing_columns_fatal :
    (∀ (cols : List String) (rows : List Row),
      missingColumns (discoverColumns cols) ≠ [] →
      parse_excel cols rows
        = .error ("Missing expected columns: "
            ++ joinCommaSp (missingColumns (discoverColumns cols))))
    ∧ missingColumns (discoverColumns ["foo"])
        = ["client code", "date", "time", "reference", "employee", "price"]
    ∧ parse_excel ["foo"] ([] : List Row)
        = .error "Missing expected columns: client code, date, time, reference, employee, price" := by
  refine ⟨?_, by decide, rfl⟩
  intro cols rows h
  rw [parse_excel, if_pos h]

/-- Witness for C9: a sheet whose single column matches no keyword is
rejected with the full missing-field list. -/
theorem C9_missing_columns_fatal_witness :
    parse_excel ["foo"] ([] : List Row)
      = .error ("Missing expected columns: "
          ++ joinCommaSp (missingColumns (discoverColumns ["foo"]))) :=
  C9_missing_columns_fatal.1 ["foo"] [] (by decide)

/-- Counterexample for C1: in `parse_excel`, a row whose price cell fails to
parse (`"abc"`) is not dropped — it is emitted with `price` defaulted to
`0.0`. -/
theorem C1_price_default_cex :
    pyFloat? "abc" = none
    ∧ parse_excel ["client_code", "date", "time", "reference", "employee", "price"]
        [[("client_code", .str "7"), ("date", .dt 2025 7 1 0 0 0),
          ("time", .str "10:00"), ("reference", .str "#5"),
          ("employee", .str "Bob"), ("price", .str "abc")]]
      = .ok [⟨"7", "2025-07-01", "10:00", "5", "Bob", "", 0⟩] := ⟨rfl, rfl⟩

/-- Claim C1 (amended): in both PDF parser variants a line whose trailing
price token fails to parse produces no record (the line is skipped), but in
the Excel parser a row whose price cell fails to parse is still emitted,
with `price` defaulted to `0.0`. -/
theorem C1_unparseable_price :
    (∀ (st : Option Header) (line : String) (rest : List String) (d p : List Char),
      parse_transactions.headerMatch (pyStrip line) = none →
      rsplitOnce (pyStrip line).toList = some (d, p) →
      pyFloat? ⟨cleanPriceStr p⟩ = none →
      parse_transactions.processLines st (line :: rest)
        = parse_transactions.processLines st rest)
    ∧ (∀ (st : Option Header) (line : String) (rest : List String) (d p : List Char),
      parseTransactions.headerMatch line = none →
      rsplitOnce line.toList = some (d, p) →
      pyFloat? ⟨cleanPriceStr p⟩ = none →
      parseTransactions.processLines st (line :: rest)
        = parseTransactions.processLines st rest)
    ∧ (∀ (codeC dateC timeC refC empC descC priceC : String) (row : Row)
        (r : TxnRecord),
      processRow codeC dateC timeC refC empC descC priceC row = some r →
      pyFloat? (pyStrip ⟨cleanPriceStr (cellToStr (rowGet row priceC)).toList⟩) = none →
      r.price = 0) := by
  refine ⟨?_, ?_, ?_⟩
  · intro st line rest d p hh hrs hpf
    cases st with
    | none => simp only [parse_transactions.processLines, hh]
    | some h => simp only [parse_transactions.processLines, hh, hrs, hpf]
  · intro st line rest d p hh hrs hpf
    cases st with
    | none => simp only [parseTransactions.processLines, hh, hrs]
    | some h => simp only [parseTransactions.processLines, hh, hrs, hpf]
  · intro codeC dateC timeC refC empC descC priceC row r hrow hpf
    simp only [processRow, hpf, Option.getD_none] at hrow
    by_cases h1 : pyStrip (cellToStr (rowGet row codeC)) = ""
        ∨ pyLower (pyStrip (cellToStr (rowGet row codeC))) = "nan"
    · rw [if_pos h1] at hrow
      exact absurd hrow (by simp)
    · rw [if_neg h1] at hrow
      by_cases h2 : rowGet row dateC = Cell.empty
      · rw [if_pos h2] at hrow
        exact absurd hrow (by simp)
      · rw [if_neg h2] at hrow
        cases hdi : dateToIso (rowGet row dateC) with
        | none =>
          rw [hdi] at hrow
          exact absurd hrow (by simp)
        | some diso =>
          rw [hdi] at hrow
          rw [← Option.some.inj hrow]

/-- Witness for C1: the PDF skip applies to the line `"Coffee abc"`, and the
Excel default applies to the counterexample row. -/
theorem C1_unparseable_price_witness :
    (parse_transactions.processLines none ["Coffee abc"]
      = parse_transactions.processLines none [])
    ∧ (parseTransactions.processLines none ["Coffee abc"]
      = parseTransactions.processLines none [])
    ∧ (⟨"7", "2025-07-01", "10:00", "5", "Bob", "", 0⟩ : TxnRecord).price = 0 := by
  refine ⟨?_, ?_, ?_⟩
  · exact C1_unparseable_price.1 none "Coffee abc" [] "Coffee".toList "abc".toList
      (by decide) (by decide) (by decide)
  · exact C1_unparseable_price.2.1 none "Coffee abc" [] "Coffee".toList "abc".toList
      (by decide) (by decide) (by decide)
  · exact C1_unparseable_price.2.2 "client_code" "date" "time" "reference" "employee"
      "reference" "price"
      [("client_code", .str "7"), ("date", .dt 2025 7 1 0 0 0),
       ("time", .str "10:00"), ("reference", .str "#5"),
       ("employee", .str "Bob"), ("price", .str "abc")]
      ⟨"7", "2025-07-01", "10:00", "5", "Bob", "", 0⟩ rfl (by decide)


/-! ## Header-context invariants -/

/-- A record carries exactly the fields of a header. -/
def recHasHeaderFields (r : TxnRecord) (h : Header) : Prop :=
  r.client_code = h.client_code ∧ r.date = h.date ∧ r.time = h.time
  ∧ r.reference = h.reference ∧ r.employee = h.employee

theorem pdf_go_mem_header (lines : List String) (st : Option Header)
    (r : TxnRecord) (hr : r ∈ parse_transactions.processLines st lines) :
    (∃ l ∈ lines, ∃ h, parse_transactions.headerMatch (pyStrip l) = some h
      ∧ recHasHeaderFields r h)
    ∨ (∃ h, st = some h ∧ recHasHeaderFields r h) := by
  induction lines generalizing st with
  | nil => exact absurd hr (by simp [parse_transactions.processLines])
  | cons line rest ih =>
    cases hh : parse_transactions.headerMatch (pyStrip line) with
    | some h =>
      simp only [parse_transactions.processLines, hh] at hr
      rcases ih (some h) hr with ⟨l, hl, hfound⟩ | ⟨h2, heq, hf⟩
      · exact .inl ⟨l, List.mem_cons_of_mem _ hl, hfound⟩
      · exact .inl ⟨line, List.mem_cons_self _ _,
          h2, (Option.some.inj heq) ▸ hh, hf⟩
    | none =>
      cases st with
      | none =>
        simp only [parse_transactions.processLines, hh] at hr
        rcases ih none hr with ⟨l, hl, hfound⟩ | ⟨h2, heq, -⟩
        · exact .inl ⟨l, List.mem_cons_of_mem _ hl, hfound⟩
        · exact absurd heq (by simp)
      | some h =>
        cases hrs : rsplitOnce (pyStrip line).toList with
        | none =>
          simp only [parse_transactions.processLines, hh, hrs] at hr
          rcases ih (some h) hr with ⟨l, hl, hfound⟩ | hst
          · exact .inl ⟨l, List.mem_cons_of_mem _ hl, hfound⟩
          · exact .inr hst
        | some dp =>
          obtain ⟨d, p⟩ := dp
          cases hpf : pyFloat? ⟨cleanPriceStr p⟩ with
          | none =>
            simp only [parse_transactions.processLines, hh, hrs, hpf] at hr
            rcases ih (some h) hr with ⟨l, hl, hfound⟩ | hst
            · exact .inl ⟨l, List.mem_cons_of_mem _ hl, hfound⟩
            · exact .inr hst
          | some price =>
            simp only [parse_transactions.processLines, hh, hrs, hpf] at hr
            rcases List.mem_cons.mp hr with heq | htail
            · exact .inr ⟨h, rfl, by
                rw [heq]
                exact ⟨rfl, rfl, rfl, rfl, rfl⟩⟩
            · rcases ih (some h) htail with ⟨l, hl, hfound⟩ | hst
              · exact .inl ⟨l, List.mem_cons_of_mem _ hl, hfound⟩
              · exact .inr hst

theorem pdf_go_drop_headerless_lead (pre rest : List String)
    (hpre : ∀ l ∈ pre, parse_transactions.headerMatch (pyStrip l) = none) :
    parse_transactions.processLines none (pre ++ rest)
      = parse_transactions.processLines none rest := by
  induction pre with
  | nil => rfl
  | cons line pre2 ih =>
    rw [List.cons_append]
    have hh := hpre line (List.mem_cons_self _ _)
    simp only [parse_transactions.processLines, hh]
    exact ih (fun l hl => hpre l (List.mem_cons_of_mem _ hl))

theorem entryOfLine_date (d line : String) (e : JEntry)
    (he : txt_journal.entryOfLine d line = some e) : e.date = d := by
  rw [txt_journal.entryOfLine] at he
  split_ifs at he with h
  · cases hpf : pyFloat?
        ⟨(((txt_journal.lineParts line).getD 1 "").toList.filter (fun c => c ≠ ','))⟩ with
    | none =>
      rw [hpf] at he
      exact absurd he (by simp)
    | some amt =>
      rw [hpf] at he
      rw [← Option.some.inj he]

theorem journal_go_mem_date (lines : List String) (cur : Option String)
    (e : JEntry) (he : e ∈ txt_journal.processLines cur lines) :
    (∃ l ∈ lines, txt_journal.lineDate? l = some e.date)
    ∨ (∃ d, cur = some d ∧ e.date = d) := by
  induction lines generalizing cur with
  | nil => exact absurd he (by simp [txt_journal.processLines])
  | cons line rest ih =>
    by_cases hemp : pyStrip line = ""
    · simp only [txt_journal.processLines, if_pos hemp] at he
      rcases ih cur he with ⟨l, hl, hfound⟩ | hst
      · exact .inl ⟨l, List.mem_cons_of_mem _ hl, hfound⟩
      · exact .inr hst
    · cases hdh : dateHead? ((txt_journal.lineParts (pyStrip line)).headD "") with
      | some d =>
        simp only [txt_journal.processLines, if_neg hemp, hdh] at he
        rcases ih (some d) he with ⟨l, hl, hfound⟩ | ⟨d2, heq, hf⟩
        · exact .inl ⟨l, List.mem_cons_of_mem _ hl, hfound⟩
        · refine .inl ⟨line, List.mem_cons_self _ _, ?_⟩
          rw [txt_journal.lineDate?, if_neg hemp, hdh, hf, Option.some.inj heq]
      | none =>
        cases cur with
        | none =>
          simp only [txt_journal.processLines, if_neg hemp, hdh] at he
          rcases ih none he with ⟨l, hl, hfound⟩ | ⟨d2, heq, -⟩
          · exact .inl ⟨l, List.mem_cons_of_mem _ hl, hfound⟩
          · exact absurd heq (by simp)
        | some d =>
          cases hel : txt_journal.entryOfLine d (pyStrip line) with
          | none =>
            simp only [txt_journal.processLines, if_neg hemp, hdh, hel] at he
            rcases ih (some d) he with ⟨l, hl, hfound⟩ | hst
            · exact .inl ⟨l, List.mem_cons_of_mem _ hl, hfound⟩
            · exact .inr hst
          | some e0 =>
            simp only [txt_journal.processLines, if_neg hemp, hdh, hel] at he
            rcases List.mem_cons.mp he with heq | htail
            · exact .inr ⟨d, rfl, heq ▸ entryOfLine_date d (pyStrip line) e0 hel⟩
            · rcases ih (some d) htail with ⟨l, hl, hfound⟩ | hst
              · exact .inl ⟨l, List.mem_cons_of_mem _ hl, hfound⟩
              · exact .inr hst

theorem journal_go_drop_dateless_lead (pre rest : List String)
    (hpre : ∀ l ∈ pre, txt_journal.lineDate? l = none) :
    txt_journal.processLines none (pre ++ rest)
      = txt_journal.processLines none rest := by
  induction pre with
  | nil => rfl
  | cons line pre2 ih =>
    have hld := hpre line (List.mem_cons_self _ _)
    rw [List.cons_append]
    by_cases hemp : pyStrip line = ""
    · simp only [txt_journal.processLines, if_pos hemp]
      exact ih (fun l hl => hpre l (List.mem_cons_of_mem _ hl))
    · rw [txt_journal.lineDate?, if_neg hemp] at hld
      simp only [txt_journal.processLines, if_neg hemp, hld]
      exact ih (fun l hl => hpre l (List.mem_cons_of_mem _ hl))

/-- Claim C6: a detail line is emitted only under an active header context —
in both the PDF parser and the journal parser, every emitted record carries
the fields of some header line of the document, and a document prefix
containing no header line contributes no record (detail lines preceding any
header are dropped). -/
theorem C6_no_orphan_records :
    (∀ (lines : List String) (r : TxnRecord),
      r ∈ parse_transactions.parse_transaction_pdf lines →
      ∃ l ∈ lines, ∃ h, parse_transactions.headerMatch (pyStrip l) = some h
        ∧ recHasHeaderFields r h)
    ∧ (∀ (pre rest : List String),
      (∀ l ∈ pre, parse_transactions.headerMatch (pyStrip l) = none) →
      parse_transactions.parse_transaction_pdf (pre ++ rest)
        = parse_transactions.parse_transaction_pdf rest)
    ∧ (∀ (lines : List String) (e : JEntry),
      e ∈ txt_journal.processLines none lines →
      ∃ l ∈ lines, txt_journal.lineDate? l = some e.date)
    ∧ (∀ (pre rest : List String),
      (∀ l ∈ pre, txt_journal.lineDate? l = none) →
      txt_journal.processLines none (pre ++ rest)
        = txt_journal.processLines none rest) := by
  refine ⟨?_, pdf_go_drop_headerless_lead, ?_, journal_go_drop_dateless_lead⟩
  · intro lines r hr
    rcases pdf_go_mem_header lines none r hr with hfound | ⟨h, heq, -⟩
    · exact hfound
    · exact absurd heq (by simp)
  · intro lines e he
    rcases journal_go_mem_date lines none e he with hfound | ⟨d, heq, -⟩
    · exact hfound
    · exact absurd heq (by simp)

/-- Witness for C6 at the spec's examples: the Club-Sandwich detail record
carries the fields of the preceding header line, a headerless prefix is
dropped by the PDF parser, the journal entry's date comes from its date
header, and a dateless prefix is dropped by the journal parser. -/
theorem C6_no_orphan_records_witness :
    (∃ l ∈ ["007 7/4/25 12:01 #88 ana", "Club Sandwich 12.50"],
      ∃ h, parse_transactions.headerMatch (pyStrip l) = some h
        ∧ recHasHeaderFields
            ⟨"007", "2025-07-04", "12:01", "88", "ana", "Club Sandwich",
              1 * ((12 : ℚ) + 50 / 10 ^ 2)⟩ h)
    ∧ parse_transactions.parse_transaction_pdf
        (["page furniture"] ++ ["007 7/4/25 12:01 #88 ana", "Club Sandwich 12.50"])
      = parse_transactions.parse_transaction_pdf
          ["007 7/4/25 12:01 #88 ana", "Club Sandwich 12.50"]
    ∧ (∃ l ∈ ["08-05-25", "1105, 31.85"],
      txt_journal.lineDate? l
        = some (⟨"2025-08-05", "1105", 1 * ((31 : ℚ) + 85 / 10 ^ 2)⟩ : JEntry).date)
    ∧ txt_journal.processLines none (["a journal banner"] ++ ["08-05-25", "1105, 31.85"])
      = txt_journal.processLines none ["08-05-25", "1105, 31.85"] := by
  refine ⟨?_, ?_, ?_, ?_⟩
  · exact C6_no_orphan_records.1 ["007 7/4/25 12:01 #88 ana", "Club Sandwich 12.50"]
      ⟨"007", "2025-07-04", "12:01", "88", "ana", "Club Sandwich",
        1 * ((12 : ℚ) + 50 / 10 ^ 2)⟩ (List.Mem.head _)
  · exact C6_no_orphan_records.2.1 ["page furniture"]
      ["007 7/4/25 12:01 #88 ana", "Club Sandwich 12.50"] (by decide)
  · exact C6_no_orphan_records.2.2.1 ["08-05-25", "1105, 31.85"]
      ⟨"2025-08-05", "1105", 1 * ((31 : ℚ) + 85 / 10 ^ 2)⟩ (List.Mem.head _)
  · exact C6_no_orphan_records.2.2.2 ["a journal banner"]
      ["08-05-25", "1105, 31.85"] (by decide)


/-! ## Comparing the two PDF parser variants -/

theorem processLines_variants_agree (lines : List String) (st : Option Header)
    (hyp : ∀ l ∈ lines, pyStrip l = l
      ∧ parse_transactions.headerMatch l = parseTransactions.headerMatch l) :
    parse_transactions.processLines st lines
      = parseTransactions.processLines st lines := by
  induction lines generalizing st with
  | nil => rfl
  | cons line rest ih =>
    obtain ⟨hstrip, hhm⟩ := hyp line (List.mem_cons_self _ _)
    have hyprest : ∀ l ∈ rest, pyStrip l = l
        ∧ parse_transactions.headerMatch l = parseTransactions.headerMatch l :=
      fun l hl => hyp l (List.mem_cons_of_mem _ hl)
    cases hh : parseTransactions.headerMatch line with
    | some h =>
      have hh1 : parse_transactions.headerMatch line = some h := by rw [hhm, hh]
      simp only [parse_transactions.processLines, parseTransactions.processLines,
        hstrip, hh, hh1]
      exact ih (some h) hyprest
    | none =>
      have hh1 : parse_transactions.headerMatch line = none := by rw [hhm, hh]
      cases st with
      | none =>
        cases hrs : rsplitOnce line.toList with
        | none =>
          simp only [parse_transactions.processLines, parseTransactions.processLines,
            hstrip, hh, hh1, hrs]
          exact ih none hyprest
        | some dp =>
          obtain ⟨d, p⟩ := dp
          simp only [parse_transactions.processLines, parseTransactions.processLines,
            hstrip, hh, hh1, hrs]
          exact ih none hyprest
      | some h0 =>
        cases hrs : rsplitOnce line.toList with
        | none =>
          simp only [parse_transactions.processLines, parseTransactions.processLines,
            hstrip, hh, hh1, hrs]
          exact ih (some h0) hyprest
        | some dp =>
          obtain ⟨d, p⟩ := dp
          cases hpf : pyFloat? ⟨cleanPriceStr p⟩ with
          | none =>
            simp only [parse_transactions.processLines, parseTransactions.processLines,
              hstrip, hh, hh1, hrs, hpf]
            exact ih (some h0) hyprest
          | some price =>
            simp only [parse_transactions.processLines, parseTransactions.processLines,
              hstrip, hh, hh1, hrs, hpf]
            rw [ih (some h0) hyprest]

/-- Counterexample for C10: on the document
`["7 1/2/23 10:30 #44 John Smith", "Coffee 2.50"]` the two parsers disagree —
`parse_transactions.py` captures the employee as the full remainder
`"John Smith"`, `parseTransactions.py` captures only the first token
`"John"`. -/
theorem C10_parser_variants_cex :
    ((parse_transactions.parse_transaction_pdf
        ["7 1/2/23 10:30 #44 John Smith", "Coffee 2.50"]).map (fun r => r.employee)
      = ["John Smith"])
    ∧ ((parseTransactions.parse_transaction_pdf
        ["7 1/2/23 10:30 #44 John Smith", "Coffee 2.50"]).map (fun r => r.employee)
      = ["John"])
    ∧ parse_transactions.parse_transaction_pdf
        ["7 1/2/23 10:30 #44 John Smith", "Coffee 2.50"]
      ≠ parseTransactions.parse_transaction_pdf
          ["7 1/2/23 10:30 #44 John Smith", "Coffee 2.50"] := by
  have e1 : (parse_transactions.parse_transaction_pdf
      ["7 1/2/23 10:30 #44 John Smith", "Coffee 2.50"]).map (fun r => r.employee)
      = ["John Smith"] := by decide
  have e2 : (parseTransactions.parse_transaction_pdf
      ["7 1/2/23 10:30 #44 John Smith", "Coffee 2.50"]).map (fun r => r.employee)
      = ["John"] := by decide
  refine ⟨e1, e2, fun hcontra => ?_⟩
  rw [hcontra, e2] at e1
  exact absurd e1 (by decide)

/-- Claim C10 (amended): the two PDF parser variants disagree in general
(employee capture `.+`-stripped versus `\S+`, and line stripping); they do
compute the same record sequence on documents whose lines are already
stripped and whose header lines make the two header matchers agree (single
whitespace-free employee tokens). -/
theorem C10_parser_variants_agree_when_normalized (lines : List String)
    (hyp : ∀ l ∈ lines, pyStrip l = l
      ∧ parse_transactions.headerMatch l = parseTransactions.headerMatch l) :
    parse_transactions.parse_transaction_pdf lines
      = parseTransactions.parse_transaction_pdf lines :=
  processLines_variants_agree lines none hyp

/-- Witness for C10 (amended) on a stripped document with a single-token
employee. -/
theorem C10_parser_variants_agree_when_normalized_witness :
    parse_transactions.parse_transaction_pdf ["7 1/2/23 10:30 #44 Bob", "Coffee 2.50"]
      = parseTransactions.parse_transaction_pdf
          ["7 1/2/23 10:30 #44 Bob", "Coffee 2.50"] :=
  C10_parser_variants_agree_when_normalized
    ["7 1/2/23 10:30 #44 Bob", "Coffee 2.50"] (by decide)

end BistroAR
